import Mathlib

/-!
# Verification of the docs-to-mcp-cli generated server core

Shallow embedding of the document store and the three query tools
(`list_docs`, `get_doc`, `search_docs`) that the generated MCP server
embeds, translated from the server template in the generator source,
together with the template-literal escaping utility of the generator.

JavaScript strings are modelled as Lean `String`s; where character
offsets and lengths matter (search previews) content is handled as
`List Char`.  JavaScript objects built by key insertion are modelled as
association lists that keep a key's original position on overwrite and
append fresh keys at the end, matching JS property insertion order.
-/

namespace DocsToMcp

/-- Error taxonomy of the query layer: schema validation failures
(`invalidArgument`, raised by the zod layer before the handler runs) and
the handler's thrown not-found error. -/
inductive ToolError where
  | invalidArgument (msg : String)
  | notFound (msg : String)
deriving DecidableEq, Repr

/-- A JSON-ish argument value, as the MCP request layer hands it to the
zod schema.  A missing argument is modelled as `none` at the call site. -/
inductive JsonValue where
  | str (s : String)
  | num (n : Int)
  | boolV (b : Bool)
  | nullV
deriving DecidableEq, Repr

/-- `z.string()`: accepts any string (including the empty string) and
rejects a missing or non-string value. -/
def zodParseString (v : Option JsonValue) : Except ToolError String :=
  match v with
  | some (.str s) => .ok s
  | _ => .error (.invalidArgument "Expected string")

/-- Insert into a JS-object-style association list: an existing key keeps
its position and gets the new value; a fresh key is appended.  Models
`docs[relativePath] = ...` in `generateServer`. -/
def insertDoc : List (String × String) → String → String → List (String × String)
  | [], k, v => [(k, v)]
  | (k', v') :: rest, k, v =>
      if k' = k then (k', v) :: rest else (k', v') :: insertDoc rest k v

/-- Build the `docs` record from the ordered `(relativePath, content)`
pairs read by the generator (`docs[relativePath] = fs.readFileSync ...`
in a loop). -/
def buildDocs (pairs : List (String × String)) : List (String × String) :=
  pairs.foldl (fun m p => insertDoc m p.1 p.2) []

/-- `docs[name]`: property lookup on the JS object, i.e. the value of the
(unique) entry with this key. -/
def lookupDoc (m : List (String × String)) (k : String) : Option String :=
  (m.find? (fun p => p.1 = k)).map (·.2)

/-- The value of the last pair in `pairs` carrying key `k`, if any. -/
def lastValueOf (pairs : List (String × String)) (k : String) : Option String :=
  (pairs.reverse.find? (fun p => p.1 = k)).map (·.2)

/-- The `get_doc` tool: zod-validate the `name` argument, then exact
lookup; absent id throws the not-found error naming the id and pointing
at `list_docs`. -/
def get_doc (docs : List (String × String)) (nameArg : Option JsonValue) :
    Except ToolError String :=
  match zodParseString nameArg with
  | .error e => .error e
  | .ok name =>
      match lookupDoc docs name with
      | none => .error (.notFound
          ("Document '" ++ name ++ "' not found. Use list_docs to see available documents."))
      | some content => .ok content

/-- `true` exactly when the result is a schema-validation failure. -/
def isInvalidArgumentResult (r : Except ToolError String) : Bool :=
  match r with
  | .error (.invalidArgument _) => true
  | _ => false

/-- `LIST_DOCS_PREVIEW_CHARS` of the server template. -/
def LIST_DOCS_PREVIEW_CHARS : Nat := 90

/-- `Array.prototype.join(sep)`: empty list gives the empty string, a
singleton gives its element, otherwise elements interleaved with `sep`. -/
def joinSep (sep : String) : List String → String
  | [] => ""
  | [x] => x
  | x :: xs => x ++ sep ++ joinSep sep xs

/-- One `list_docs` entry:
`"--- ${name} ---\n" + content.slice(0, LIST_DOCS_PREVIEW_CHARS) + "..."`
(the `"..."` is appended unconditionally by the template). -/
def listEntry (p : String × String) : String :=
  "--- " ++ p.1 ++ " ---\n" ++ p.2.take LIST_DOCS_PREVIEW_CHARS ++ "..."

/-- The `list_docs` tool: formats one entry per stored document in store
order, joined by blank lines; the empty joined string (empty store) is
replaced by the sentinel message.  Never an error. -/
def list_docs (docs : List (String × String)) : Except ToolError String :=
  let list := joinSep "\n\n" (docs.map listEntry)
  if list = "" then .ok "No documents found."
  else .ok list

/-- `SEARCH_CONTEXT_CHARS` of the server template: characters of context
shown before and after a match. -/
def SEARCH_CONTEXT_CHARS : Nat := 200

/-- `String.prototype.substring(a, b)`: swaps the endpoints when given in
the wrong order and clamps them to the string length. -/
def jsSubstring (l : List Char) (a b : Nat) : List Char :=
  (l.take (max a b)).drop (min a b)

/-- An indexed item of the fuse index: `{ name, content }`. -/
structure FuseItem where
  name : String
  content : String
deriving DecidableEq, Repr

/-- One fuse match record: the matched key (`"content"` or `"name"`) and
its list of `[start, end]` index pairs (both offsets inclusive). -/
structure FuseMatch where
  key : String
  indices : List (Nat × Nat)
deriving DecidableEq, Repr

/-- One fuse search result with `includeMatches`.  The field `matchList`
models the result's `matches` array (`matches` is reserved in Lean). -/
structure FuseResult where
  item : FuseItem
  matchList : List FuseMatch
deriving DecidableEq, Repr

/-- `content.substring(previewStart, matchStart)` with
`previewStart = Math.max(0, matchStart - SEARCH_CONTEXT_CHARS)`. -/
def previewBefore (content : List Char) (matchStart : Nat) : List Char :=
  jsSubstring content (matchStart - SEARCH_CONTEXT_CHARS) matchStart

/-- `content.substring(matchStart, matchEnd + 1)`: the demarcated match
text (fuse index pairs are inclusive at both ends). -/
def previewMatchText (content : List Char) (matchStart matchEnd : Nat) : List Char :=
  jsSubstring content matchStart (matchEnd + 1)

/-- `content.substring(matchEnd + 1, previewEnd)` with
`previewEnd = Math.min(content.length, matchEnd + SEARCH_CONTEXT_CHARS + 1)`. -/
def previewAfter (content : List Char) (matchEnd : Nat) : List Char :=
  jsSubstring content (matchEnd + 1)
    (min content.length (matchEnd + SEARCH_CONTEXT_CHARS + 1))

/-- `previewStart > 0`: a leading `"..."` is emitted. -/
def previewLeadingEllipsis (matchStart : Nat) : Bool :=
  decide (0 < matchStart - SEARCH_CONTEXT_CHARS)

/-- `previewEnd < content.length`: a trailing `"..."` is emitted. -/
def previewTrailingEllipsis (content : List Char) (matchEnd : Nat) : Bool :=
  decide (min content.length (matchEnd + SEARCH_CONTEXT_CHARS + 1) < content.length)

/-- The highlighted preview emitted for one match occurrence:
`` `${previewPrefix}${beforeMatch}**${matchText}**${afterMatch}${previewSuffix}` ``. -/
def makePreview (content : List Char) (matchStart matchEnd : Nat) : String :=
  (if previewLeadingEllipsis matchStart then "..." else "") ++
  (previewBefore content matchStart).asString ++ "**" ++
  (previewMatchText content matchStart matchEnd).asString ++ "**" ++
  (previewAfter content matchEnd).asString ++
  (if previewTrailingEllipsis content matchEnd then "..." else "")

/-- The previews of one fuse result: every index pair of every
`"content"`-key match becomes a preview (`flatMap` + `filter(Boolean)`). -/
def previewsFor (r : FuseResult) : List String :=
  (r.matchList.flatMap fun m =>
    if m.key = "content" ∧ m.indices ≠ [] then
      m.indices.map fun p => makePreview r.item.content.toList p.1 p.2
    else []).filter fun s => s != ""

/-- `{ file: item.name, previews }` of the `formattedResults` map. -/
structure FormattedResult where
  file : String
  previews : List String
deriving DecidableEq, Repr

/-- One entry of `formattedResults`. -/
def formatResult (r : FuseResult) : FormattedResult :=
  ⟨r.item.name, previewsFor r⟩

/-- `formattedResults.reduce((count, {previews}) => count + previews.length, 0)`. -/
def totalMatches (frs : List FormattedResult) : Nat :=
  (frs.map (fun fr => fr.previews.length)).sum

/-- `"Match ${i+1}:\n${preview}\n\n"`. -/
def matchBlock (i : Nat) (preview : String) : String :=
  "Match " ++ toString (i + 1) ++ ":\n" ++ preview ++ "\n\n"

/-- The per-file portion of the response: the `File:` line followed by
the numbered match previews, or the no-preview fallback line. -/
def fileBlock (fr : FormattedResult) : String :=
  "File: " ++ fr.file ++ "\n" ++
  (if 0 < fr.previews.length then
    String.join (fr.previews.enum.map fun p => matchBlock p.1 p.2)
  else "(Match found but no preview available)\n\n")

/-- The formatted non-empty search response: header with total match
count and echoed query, then every file block. -/
def searchResponse (query : String) (results : List FuseResult) : String :=
  "Found " ++ toString (totalMatches (results.map formatResult)) ++
  " matches for \"" ++ query ++ "\":\n\n" ++
  String.join ((results.map formatResult).map fileBlock)

/-- The `search_docs` tool, parametrized by the fuse search function
(`fuse.search`, an external library call): zod-validate `query`, return
the no-matches message on an empty result list, otherwise the formatted
response. -/
def search_docs (fuseSearch : String → List FuseResult)
    (queryArg : Option JsonValue) : Except ToolError String :=
  match zodParseString queryArg with
  | .error e => .error e
  | .ok query =>
      if fuseSearch query = [] then
        .ok ("No matches found for query: \"" ++ query ++ "\"")
      else .ok (searchResponse query (fuseSearch query))

/-- Modelled from the spec: `fuse.search` is provided by the external
fuse.js dependency (not part of this repository's sources); over an
index built from zero documents it returns no results for any query. -/
def emptyIndexSearch : String → List FuseResult := fun _ => []

-- ### Spec-modelled fuzzy scorer (fuse.js is an external dependency)

/-- One row-update step of the Levenshtein dynamic program: walks the
second word together with the previous row, carrying the value computed
for the current row's previous column. -/
def levRowGo (x : Char) : List Char → List Nat → Nat → List Nat
  | y :: ys, diag :: row, left =>
      let cur := if x = y then diag else 1 + min diag (min left (row.headD 0))
      cur :: levRowGo x ys row cur
  | _, _, _ => []

/-- Modelled from the spec: the spec describes the scorer of the
external fuse.js library as "an edit-distance/token-based similarity
scorer"; this is the standard Levenshtein edit distance. -/
def editDistance (a b : List Char) : Nat :=
  ((a.foldl
      (fun (st : List Nat × Nat) x =>
        ((st.2 + 1) :: levRowGo x b st.1 (st.2 + 1), st.2 + 1))
      (List.range (b.length + 1), 0)).1).getLastD 0

/-- Modelled from the spec: the configured similarity threshold is 0.4
(`FUSE_OPTIONS.threshold`), read as allowing up to `0.4 * |query|`
character edits. -/
def maxEditsFor (query : List Char) : Nat := query.length * 2 / 5

/-- Every contiguous substring of a word. -/
def substringsOf (l : List Char) : List (List Char) :=
  (List.range (l.length + 1)).flatMap fun i =>
    (List.range (l.length - i + 1)).map fun n => (l.drop i).take n

/-- Modelled from the spec: a searchable field matches the query when
some contiguous substring of the field is within the threshold-allowed
edit distance of the query. -/
def fuzzyFieldMatch (query field : List Char) : Bool :=
  (substringsOf field).any fun w => editDistance w query ≤ maxEditsFor query

/-- Modelled from the spec: the documents surfaced by the fuzzy scorer —
a document matches when its content (primary field) or its id/name
(secondary field) matches the query, in store order. -/
def fuzzySearchStore (docs : List (String × String)) (query : String) :
    List (String × String) :=
  docs.filter fun p =>
    fuzzyFieldMatch query.toList p.2.toList || fuzzyFieldMatch query.toList p.1.toList

-- ### Template-literal escaping (generator's escapeTemplateLiteral)

/-- The backtick character (written by code point to keep source plain). -/
def backtickChar : Char := Char.ofNat 96

/-- The left-brace character (written by code point to keep source plain). -/
def lbraceChar : Char := Char.ofNat 123

/-- `str.replace(/\\/g, '\\\\')`: double every backslash. -/
def escBackslashes : List Char → List Char
  | [] => []
  | c :: t =>
      if c = '\\' then '\\' :: '\\' :: escBackslashes t
      else c :: escBackslashes t

/-- `.replace(/`/g, '\\`')`: prepend a backslash to every backtick. -/
def escBackticks : List Char → List Char
  | [] => []
  | c :: t =>
      if c = backtickChar then '\\' :: backtickChar :: escBackticks t
      else c :: escBackticks t

/-- `.replace(/\$\{/g, '\\${')`: prepend a backslash to every
(left-to-right, non-overlapping) occurrence of the two characters
dollar + left brace. -/
def escDollarBrace : List Char → List Char
  | [] => []
  | [c] => [c]
  | c :: c2 :: t =>
      if c = '$' ∧ c2 = lbraceChar then
        '\\' :: '$' :: lbraceChar :: escDollarBrace t
      else c :: escDollarBrace (c2 :: t)

/-- The generator's `escapeTemplateLiteral`, the three replacements in
source order, over strings modelled as character lists. -/
def escapeTemplateLiteral (s : List Char) : List Char :=
  escDollarBrace (escBackticks (escBackslashes s))

/-- Modelled from the claim's words: interpret a string as the raw body
of a JavaScript template literal restricted to the three escapes the
generator introduces, i.e. undo left-to-right
backslash-backslash → backslash, backslash-backtick → backtick and
backslash-dollar-brace → dollar-brace, copying everything else. -/
def unescapeTemplateBody : List Char → List Char
  | [] => []
  | c :: t =>
      if c = '\\' then
        match t with
        | [] => [c]
        | c2 :: t2 =>
            if c2 = '\\' then '\\' :: unescapeTemplateBody t2
            else if c2 = backtickChar then backtickChar :: unescapeTemplateBody t2
            else if c2 = '$' then
              match t2 with
              | c3 :: t3 =>
                  if c3 = lbraceChar then '$' :: lbraceChar :: unescapeTemplateBody t3
                  else c :: unescapeTemplateBody (c2 :: c3 :: t3)
              | [] => c :: unescapeTemplateBody [c2]
            else c :: unescapeTemplateBody (c2 :: t2)
      else c :: unescapeTemplateBody t
termination_by l => l.length

-- ### Store lemmas

theorem lookupDoc_nil (k : String) : lookupDoc [] k = none := rfl

theorem lookupDoc_cons (k0 v0 k : String) (rest : List (String × String)) :
    lookupDoc ((k0, v0) :: rest) k =
      if k0 = k then some v0 else lookupDoc rest k := by
  by_cases h : k0 = k
  · simp [lookupDoc, List.find?_cons_of_pos, h]
  · simp [lookupDoc, List.find?_cons_of_neg, h]

theorem lookupDoc_insertDoc (m : List (String × String)) (k v : String) (k' : String) :
    lookupDoc (insertDoc m k v) k' = if k = k' then some v else lookupDoc m k' := by
  induction m with
  | nil =>
      simp only [insertDoc, lookupDoc_cons, lookupDoc_nil]
  | cons p rest ih =>
      obtain ⟨k0, v0⟩ := p
      simp only [insertDoc]
      by_cases h0 : k0 = k
      · subst h0
        rw [if_pos rfl, lookupDoc_cons, lookupDoc_cons]
        by_cases h : k0 = k' <;> simp [h]
      · rw [if_neg h0, lookupDoc_cons, lookupDoc_cons, ih]
        by_cases h1 : k0 = k'
        · subst h1
          rw [if_pos rfl, if_neg (fun hk => h0 hk.symm), if_pos rfl]
        · rw [if_neg h1, if_neg h1]

theorem lookupDoc_foldl (pairs : List (String × String)) (acc : List (String × String))
    (k : String) :
    lookupDoc (pairs.foldl (fun m p => insertDoc m p.1 p.2) acc) k =
      ((lastValueOf pairs k).or (lookupDoc acc k)) := by
  induction pairs generalizing acc with
  | nil => simp [lastValueOf]
  | cons p rest ih =>
      obtain ⟨k0, v0⟩ := p
      simp only [List.foldl_cons, ih, lastValueOf, List.reverse_cons, List.find?_append]
      rw [lookupDoc_insertDoc]
      by_cases h : k0 = k
      · subst h
        cases hfind : (rest.reverse.find? (fun p => p.1 = k0)) with
        | none => simp [Option.or, hfind]
        | some q => simp [Option.or, hfind]
      · cases hfind : (rest.reverse.find? (fun p => p.1 = k)) with
        | none => simp [Option.or, hfind, List.find?, h]
        | some q => simp [Option.or, hfind]

/-- A key present after an insert was present before or is the inserted key. -/
theorem mem_keys_insertDoc (m : List (String × String)) (k v k' : String)
    (h : k' ∈ (insertDoc m k v).map (·.1)) : k' ∈ m.map (·.1) ∨ k' = k := by
  induction m with
  | nil =>
      simp only [insertDoc, List.map_cons, List.map_nil, List.mem_singleton] at h
      exact Or.inr h
  | cons p rest ih =>
      obtain ⟨k0, v0⟩ := p
      simp only [insertDoc] at h
      by_cases h0 : k0 = k
      · rw [if_pos h0] at h
        simp only [List.map_cons, List.mem_cons] at h
        rcases h with h | h
        · exact Or.inl (by simp [h])
        · exact Or.inl (by simp [List.mem_cons, h])
      · rw [if_neg h0] at h
        simp only [List.map_cons, List.mem_cons] at h
        rcases h with h | h
        · exact Or.inl (by simp [h])
        · rcases ih h with h' | h'
          · exact Or.inl (by simp [List.mem_cons, h'])
          · exact Or.inr h'

/-- Keys of an insertDoc-built list stay unique. -/
theorem keys_nodup_insertDoc (m : List (String × String)) (k v : String)
    (h : (m.map (·.1)).Nodup) : ((insertDoc m k v).map (·.1)).Nodup := by
  induction m with
  | nil => simp [insertDoc]
  | cons p rest ih =>
      obtain ⟨k0, v0⟩ := p
      simp only [List.map_cons, List.nodup_cons] at h
      simp only [insertDoc]
      by_cases h0 : k0 = k
      · simp only [if_pos h0, List.map_cons, List.nodup_cons]
        exact h
      · simp only [if_neg h0, List.map_cons, List.nodup_cons]
        refine ⟨fun hmem => ?_, ih h.2⟩
        rcases mem_keys_insertDoc rest k v k0 hmem with h' | h'
        · exact h.1 h'
        · exact h0 h'

theorem keys_nodup_buildDocs (pairs : List (String × String)) :
    ((buildDocs pairs).map (·.1)).Nodup := by
  have general : ∀ acc : List (String × String), (acc.map (·.1)).Nodup →
      (((pairs.foldl (fun m p => insertDoc m p.1 p.2) acc)).map (·.1)).Nodup := by
    induction pairs with
    | nil => intro acc h; simpa using h
    | cons p rest ih =>
        intro acc h
        simp only [List.foldl_cons]
        exact ih _ (keys_nodup_insertDoc acc p.1 p.2 h)
  simpa [buildDocs] using general [] (by simp)

/-- In a list with unique keys, membership determines the lookup. -/
theorem lookupDoc_of_mem (m : List (String × String)) (k c : String)
    (hnd : (m.map (·.1)).Nodup) (hmem : (k, c) ∈ m) :
    lookupDoc m k = some c := by
  induction m with
  | nil => simp at hmem
  | cons p rest ih =>
      obtain ⟨k0, v0⟩ := p
      simp only [List.map_cons, List.nodup_cons] at hnd
      simp only [List.mem_cons] at hmem
      rcases hmem with h | h
      · obtain ⟨hk, hv⟩ := Prod.mk.injEq .. ▸ h
        subst hk; subst hv
        rw [lookupDoc_cons, if_pos rfl]
      · have hk0 : k0 ≠ k := by
          intro he
          subst he
          exact hnd.1 (by simpa using List.mem_map_of_mem (·.1) h)
        rw [lookupDoc_cons, if_neg hk0]
        exact ih hnd.2 h

theorem length_joinSep_cons_ge (sep x : String) (xs : List String) :
    x.length ≤ (joinSep sep (x :: xs)).length := by
  cases xs with
  | nil => simp [joinSep]
  | cons y ys =>
      simp only [joinSep, String.length_append]
      omega

theorem length_listEntry_ge (p : String × String) : 4 ≤ (listEntry p).length := by
  have h4 : ("--- " : String).length = 4 := rfl
  simp only [listEntry, String.length_append, h4]
  omega

-- ### Claim theorems: store construction and get_doc

/-- C9: building the store from (id, content) pairs always succeeds, and
with duplicate ids the later pair silently wins: the built `docs` record
maps each id to the value of the last pair carrying it. -/
theorem C9_duplicate_ids_last_wins (pairs : List (String × String)) (k : String) :
    lookupDoc (buildDocs pairs) k = lastValueOf pairs k := by
  have h := lookupDoc_foldl pairs [] k
  simpa [buildDocs, lookupDoc_nil, Option.or_none] using h

/-- C1: round-trip — any document (id, content) present in the built
store is returned byte-for-byte by `get_doc` called with that id. -/
theorem C1_get_doc_round_trip (pairs : List (String × String)) (I C : String)
    (h : (I, C) ∈ buildDocs pairs) :
    get_doc (buildDocs pairs) (some (.str I)) = .ok C := by
  have hl := lookupDoc_of_mem _ _ _ (keys_nodup_buildDocs pairs) h
  simp [get_doc, zodParseString, hl]

theorem C1_get_doc_round_trip_witness :
    (("a.md", "héllo\n  wörld\t✓") ∈ buildDocs
        [("b.md", "other"), ("a.md", "héllo\n  wörld\t✓")]) ∧
    get_doc (buildDocs [("b.md", "other"), ("a.md", "héllo\n  wörld\t✓")])
        (some (.str "a.md")) = .ok "héllo\n  wörld\t✓" :=
  ⟨by decide, C1_get_doc_round_trip _ _ _ (by decide)⟩

/-- C5: for a non-empty id absent from the store, `get_doc` signals the
not-found error whose message contains the id and mentions `list_docs`,
and returns no content; for an id present in the store it never errors. -/
theorem C5_not_found_contract (docs : List (String × String)) (name : String)
    (_hne : name ≠ "") :
    (lookupDoc docs name = none →
      get_doc docs (some (.str name)) = .error (.notFound
        ("Document '" ++ name ++ "' not found. Use list_docs to see available documents.")) ∧
      (∃ a b, ("Document '" ++ name ++ "' not found. Use list_docs to see available documents.")
        = a ++ name ++ b) ∧
      (∃ a b, ("Document '" ++ name ++ "' not found. Use list_docs to see available documents.")
        = a ++ "list_docs" ++ b)) ∧
    (∀ c, lookupDoc docs name = some c →
      get_doc docs (some (.str name)) = .ok c) := by
  constructor
  · intro hnone
    refine ⟨by simp [get_doc, zodParseString, hnone], ⟨"Document '", _, rfl⟩, ?_⟩
    refine ⟨"Document '" ++ name ++ "' not found. Use ", " to see available documents.", ?_⟩
    have hlit : ("' not found. Use list_docs to see available documents." : String)
        = "' not found. Use " ++ "list_docs" ++ " to see available documents." := rfl
    rw [hlit]
    simp [String.append_assoc]
  · intro c hc
    simp [get_doc, zodParseString, hc]

theorem C5_not_found_contract_witness :
    ("missing.md" : String) ≠ "" ∧
    ((lookupDoc [("a.md", "x")] "missing.md" = none →
      get_doc [("a.md", "x")] (some (.str "missing.md")) = .error (.notFound
        ("Document '" ++ "missing.md" ++ "' not found. Use list_docs to see available documents.")) ∧
      (∃ a b, ("Document '" ++ "missing.md" ++ "' not found. Use list_docs to see available documents.")
        = a ++ "missing.md" ++ b) ∧
      (∃ a b, ("Document '" ++ "missing.md" ++ "' not found. Use list_docs to see available documents.")
        = a ++ "list_docs" ++ b)) ∧
    (∀ c, lookupDoc [("a.md", "x")] "missing.md" = some c →
      get_doc [("a.md", "x")] (some (.str "missing.md")) = .ok c)) :=
  ⟨by decide, C5_not_found_contract [("a.md", "x")] "missing.md" (by decide)⟩

/-- C3 counterexample: the empty string passes the `z.string()` schema,
so `get_doc` with `name = ""` reaches the handler and raises the
not-found error, not an invalid-argument error, refuting the claim that
an empty `name` signals `InvalidArgumentError`. -/
theorem C3_counterexample :
    get_doc [("a.md", "x")] (some (.str "")) = .error (.notFound
      "Document '' not found. Use list_docs to see available documents.") ∧
    isInvalidArgumentResult (get_doc [("a.md", "x")] (some (.str ""))) = false := by
  exact ⟨rfl, rfl⟩

/-- C3 (amended): `get_doc` signals `InvalidArgumentError` exactly when
the `name` argument is missing or not a string; an empty string passes
validation and is handled as an ordinary (not-found) lookup. -/
theorem C3_invalid_argument_amended (docs : List (String × String))
    (nameArg : Option JsonValue) (h : ∀ s : String, nameArg ≠ some (.str s)) :
    get_doc docs nameArg = .error (.invalidArgument "Expected string") := by
  cases nameArg with
  | none => rfl
  | some v =>
      cases v with
      | str s => exact absurd rfl (h s)
      | num n => rfl
      | boolV b => rfl
      | nullV => rfl

theorem C3_invalid_argument_amended_witness :
    (∀ s : String, (none : Option JsonValue) ≠ some (.str s)) ∧
    get_doc [("a.md", "x")] none = .error (.invalidArgument "Expected string") :=
  ⟨fun _ h => Option.noConfusion h,
   C3_invalid_argument_amended [("a.md", "x")] none (fun _ h => Option.noConfusion h)⟩

/-- C7: `list_docs` never errors; on the empty store it returns the
sentinel message, otherwise the blank-line-joined list of per-document
entries `"--- {id} ---\n{first 90 chars}..."` in store order, with
exactly one entry per stored document. -/
theorem C7_list_docs_totality (docs : List (String × String)) :
    list_docs docs = .ok (if docs = [] then "No documents found."
      else joinSep "\n\n" (docs.map listEntry)) ∧
    (docs.map listEntry).length = docs.length := by
  refine ⟨?_, by simp⟩
  cases docs with
  | nil => rfl
  | cons p rest =>
      have hne : joinSep "\n\n" ((p :: rest).map listEntry) ≠ "" := by
        intro hc
        have h1 := length_joinSep_cons_ge "\n\n" (listEntry p) (rest.map listEntry)
        have h2 := length_listEntry_ge p
        rw [List.map_cons] at hc
        rw [hc] at h1
        simp at h1
        omega
      simp only [list_docs, if_neg hne]
      simp

-- ### Claim theorems: search previews and response format

theorem length_jsSubstring (l : List Char) (a b : Nat) :
    (jsSubstring l a b).length = min (max a b) l.length - min a b := by
  simp [jsSubstring, List.length_drop, List.length_take]

/-- C2: for a match span at offsets `(s, e)` (half-open: `e` is one past
the last matched character, i.e. fuse's inclusive end index plus one) in
a document of length `L`, the preview's pre-context has exactly
`min s C` characters, its post-context exactly `min (L - e) C`, a
leading ellipsis appears iff `s > C`, a trailing ellipsis iff
`L - e > C`, and the emitted preview is exactly the concatenation of
those parts around the demarcated match text. -/
theorem C2_context_bounds (content : List Char) (s e : Nat)
    (hse : s < e) (heL : e ≤ content.length) :
    (previewBefore content s).length = min s SEARCH_CONTEXT_CHARS ∧
    (previewAfter content (e - 1)).length
      = min (content.length - e) SEARCH_CONTEXT_CHARS ∧
    (previewLeadingEllipsis s = true ↔ SEARCH_CONTEXT_CHARS < s) ∧
    (previewTrailingEllipsis content (e - 1) = true
      ↔ SEARCH_CONTEXT_CHARS < content.length - e) ∧
    makePreview content s (e - 1) =
      (if SEARCH_CONTEXT_CHARS < s then "..." else "") ++
      (previewBefore content s).asString ++ "**" ++
      (jsSubstring content s e).asString ++ "**" ++
      (previewAfter content (e - 1)).asString ++
      (if SEARCH_CONTEXT_CHARS < content.length - e then "..." else "") := by
  have hb : previewLeadingEllipsis s = decide (SEARCH_CONTEXT_CHARS < s) := by
    unfold previewLeadingEllipsis
    exact decide_eq_decide.mpr (by omega)
  have ht : previewTrailingEllipsis content (e - 1)
      = decide (SEARCH_CONTEXT_CHARS < content.length - e) := by
    unfold previewTrailingEllipsis
    exact decide_eq_decide.mpr (by omega)
  have he1 : e - 1 + 1 = e := by omega
  have hmt : previewMatchText content s (e - 1) = jsSubstring content s e := by
    unfold previewMatchText
    rw [he1]
  refine ⟨?_, ?_, ?_, ?_, ?_⟩
  · rw [previewBefore, length_jsSubstring]
    omega
  · rw [previewAfter, length_jsSubstring]
    omega
  · rw [hb]
    simp
  · rw [ht]
    simp
  · simp only [makePreview, hb, ht, hmt, decide_eq_true_eq]

theorem C2_context_bounds_witness :
    (3 : Nat) < 7 ∧ (7 : Nat) ≤ ("abcdefghij".toList).length ∧
    ((previewBefore "abcdefghij".toList 3).length = min 3 SEARCH_CONTEXT_CHARS ∧
    (previewAfter "abcdefghij".toList (7 - 1)).length
      = min (("abcdefghij".toList).length - 7) SEARCH_CONTEXT_CHARS ∧
    (previewLeadingEllipsis 3 = true ↔ SEARCH_CONTEXT_CHARS < 3) ∧
    (previewTrailingEllipsis "abcdefghij".toList (7 - 1) = true
      ↔ SEARCH_CONTEXT_CHARS < ("abcdefghij".toList).length - 7) ∧
    makePreview "abcdefghij".toList 3 (7 - 1) =
      (if SEARCH_CONTEXT_CHARS < 3 then "..." else "") ++
      (previewBefore "abcdefghij".toList 3).asString ++ "**" ++
      (jsSubstring "abcdefghij".toList 3 7).asString ++ "**" ++
      (previewAfter "abcdefghij".toList (7 - 1)).asString ++
      (if SEARCH_CONTEXT_CHARS < ("abcdefghij".toList).length - 7 then "..." else "")) :=
  ⟨by decide, by decide, C2_context_bounds "abcdefghij".toList 3 7 (by decide) (by decide)⟩

/-- C8: with at least one match, `search_docs` succeeds with a header
stating the total match count and echoing the query, followed by the
per-file blocks; the stated total is exactly the sum over the returned
documents of the number of previews emitted for each. -/
theorem C8_search_response_format (fuseSearch : String → List FuseResult)
    (query : String) (h : fuseSearch query ≠ []) :
    search_docs fuseSearch (some (.str query)) = .ok (
      "Found " ++
      toString (((fuseSearch query).map (fun r => (previewsFor r).length)).sum) ++
      " matches for \"" ++ query ++ "\":\n\n" ++
      String.join (((fuseSearch query).map formatResult).map fileBlock)) ∧
    totalMatches ((fuseSearch query).map formatResult)
      = ((fuseSearch query).map (fun r => (previewsFor r).length)).sum ∧
    ∀ fr ∈ (fuseSearch query).map formatResult,
      ∃ r ∈ fuseSearch query, fr.file = r.item.name ∧ fr.previews = previewsFor r := by
  have htot : totalMatches ((fuseSearch query).map formatResult)
      = ((fuseSearch query).map (fun r => (previewsFor r).length)).sum := by
    rw [totalMatches, List.map_map]
    rfl
  refine ⟨?_, htot, ?_⟩
  · simp only [search_docs, zodParseString, if_neg h, searchResponse, htot]
  · intro fr hfr
    rcases List.mem_map.mp hfr with ⟨r, hr, hfr'⟩
    exact ⟨r, hr, by rw [← hfr']; rfl, by rw [← hfr']; rfl⟩

theorem C8_search_response_format_witness :
    ((fun _ : String => [FuseResult.mk ⟨"a.md", "hello world"⟩
        [⟨"content", [(0, 4)]⟩]]) "hello" ≠ []) ∧
    (search_docs (fun _ : String => [FuseResult.mk ⟨"a.md", "hello world"⟩
        [⟨"content", [(0, 4)]⟩]]) (some (.str "hello")) = .ok (
      "Found " ++
      toString ((((fun _ : String => [FuseResult.mk ⟨"a.md", "hello world"⟩
        [⟨"content", [(0, 4)]⟩]]) "hello").map
          (fun r => (previewsFor r).length)).sum) ++
      " matches for \"" ++ "hello" ++ "\":\n\n" ++
      String.join ((((fun _ : String => [FuseResult.mk ⟨"a.md", "hello world"⟩
        [⟨"content", [(0, 4)]⟩]]) "hello").map formatResult).map fileBlock)) ∧
    totalMatches (((fun _ : String => [FuseResult.mk ⟨"a.md", "hello world"⟩
        [⟨"content", [(0, 4)]⟩]]) "hello").map formatResult)
      = (((fun _ : String => [FuseResult.mk ⟨"a.md", "hello world"⟩
        [⟨"content", [(0, 4)]⟩]]) "hello").map
          (fun r => (previewsFor r).length)).sum ∧
    ∀ fr ∈ ((fun _ : String => [FuseResult.mk ⟨"a.md", "hello world"⟩
        [⟨"content", [(0, 4)]⟩]]) "hello").map formatResult,
      ∃ r ∈ (fun _ : String => [FuseResult.mk ⟨"a.md", "hello world"⟩
        [⟨"content", [(0, 4)]⟩]]) "hello",
        fr.file = r.item.name ∧ fr.previews = previewsFor r) :=
  ⟨by decide,
   C8_search_response_format
     (fun _ : String => [FuseResult.mk ⟨"a.md", "hello world"⟩
        [⟨"content", [(0, 4)]⟩]]) "hello" (by decide)⟩

/-- C4 counterexample: the empty query passes the `z.string()` schema,
and on the empty corpus `search_docs` returns the no-matches success
message — not an `InvalidArgumentError` — refuting the claim that an
empty `query` signals `InvalidArgumentError`. -/
theorem C4_counterexample :
    search_docs emptyIndexSearch (some (.str "")) =
      .ok "No matches found for query: \"\"" ∧
    isInvalidArgumentResult (search_docs emptyIndexSearch (some (.str ""))) = false :=
  ⟨rfl, rfl⟩

/-- C4 (amended): `search_docs` signals `InvalidArgumentError` exactly
when the `query` argument is missing or not a string; an empty string
passes validation and yields a success result (on the empty corpus, the
no-matches message). -/
theorem C4_invalid_argument_amended (fuseSearch : String → List FuseResult)
    (queryArg : Option JsonValue) (h : ∀ s : String, queryArg ≠ some (.str s)) :
    search_docs fuseSearch queryArg = .error (.invalidArgument "Expected string") := by
  cases queryArg with
  | none => rfl
  | some v =>
      cases v with
      | str s => exact absurd rfl (h s)
      | num n => rfl
      | boolV b => rfl
      | nullV => rfl

theorem C4_invalid_argument_amended_witness :
    (∀ s : String, (some JsonValue.nullV : Option JsonValue) ≠ some (.str s)) ∧
    search_docs emptyIndexSearch (some JsonValue.nullV)
      = .error (.invalidArgument "Expected string") :=
  ⟨fun _ h => JsonValue.noConfusion (Option.some.inj h),
   C4_invalid_argument_amended emptyIndexSearch (some JsonValue.nullV)
     (fun _ h => JsonValue.noConfusion (Option.some.inj h))⟩

-- ### Claim theorems: fuzzy tolerance (spec-modelled scorer)

/-- C6: a store with a document whose content contains the literal word
"installation" is returned by the (spec-modelled) fuzzy scorer for the
one-character misspelling "instalation": the edit distance is 1, under
the threshold-allowed 4 edits for an 11-character query. -/
theorem C6_fuzzy_tolerance :
    (∃ pre post, ("see installation".toList : List Char)
        = pre ++ ("installation".toList : List Char) ++ post) ∧
    fuzzyFieldMatch "instalation".toList "see installation".toList = true ∧
    ("docs/install.md", "see installation") ∈
      fuzzySearchStore [("docs/install.md", "see installation")] "instalation" ∧
    editDistance "installation".toList "instalation".toList = 1 ∧
    maxEditsFor "instalation".toList = 4 :=
  ⟨⟨"see ".toList, [], by decide⟩, by decide, by decide, by decide, by decide⟩

-- ### Template-literal escaping round trip

theorem bs_ne_backtick : ('\\' : Char) ≠ backtickChar := by decide

theorem bs_ne_dollar : ('\\' : Char) ≠ '$' := by decide

theorem bs_ne_lbrace : ('\\' : Char) ≠ lbraceChar := by decide

theorem backtick_ne_bs : backtickChar ≠ '\\' := by decide

theorem backtick_ne_dollar : backtickChar ≠ '$' := by decide

theorem dollar_ne_bs : ('$' : Char) ≠ '\\' := by decide

theorem dollar_ne_backtick : ('$' : Char) ≠ backtickChar := by decide

theorem lbrace_ne_bs : lbraceChar ≠ '\\' := by decide

theorem lbrace_ne_backtick : lbraceChar ≠ backtickChar := by decide

theorem escBackslashes_cons_bs (t : List Char) :
    escBackslashes ('\\' :: t) = '\\' :: '\\' :: escBackslashes t := by
  simp [escBackslashes]

theorem escBackslashes_cons_ne (c : Char) (t : List Char) (h : c ≠ '\\') :
    escBackslashes (c :: t) = c :: escBackslashes t := by
  simp [escBackslashes, h]

theorem escBackticks_cons_bt (t : List Char) :
    escBackticks (backtickChar :: t) = '\\' :: backtickChar :: escBackticks t := by
  simp [escBackticks]

theorem escBackticks_cons_ne (c : Char) (t : List Char) (h : c ≠ backtickChar) :
    escBackticks (c :: t) = c :: escBackticks t := by
  simp [escBackticks, h]

theorem escDollarBrace_cons_ne (c : Char) (l : List Char) (h : c ≠ '$') :
    escDollarBrace (c :: l) = c :: escDollarBrace l := by
  cases l with
  | nil => simp [escDollarBrace]
  | cons c2 t => simp [escDollarBrace, h]

theorem escDollarBrace_dollar_cons (u : List Char) (h : u.head? ≠ some lbraceChar) :
    escDollarBrace ('$' :: u) = '$' :: escDollarBrace u := by
  cases u with
  | nil => simp [escDollarBrace]
  | cons c2 t =>
      have h2 : c2 ≠ lbraceChar := by simpa using h
      simp [escDollarBrace, h2]

theorem escDollarBrace_dollar_lbrace (t : List Char) :
    escDollarBrace ('$' :: lbraceChar :: t)
      = '\\' :: '$' :: lbraceChar :: escDollarBrace t := by
  simp [escDollarBrace]

theorem unescape_cons_ne (c : Char) (l : List Char) (h : c ≠ '\\') :
    unescapeTemplateBody (c :: l) = c :: unescapeTemplateBody l := by
  rw [unescapeTemplateBody.eq_def]
  simp [h]

theorem unescape_bs_bs (l : List Char) :
    unescapeTemplateBody ('\\' :: '\\' :: l) = '\\' :: unescapeTemplateBody l := by
  rw [unescapeTemplateBody.eq_def]
  simp

theorem unescape_bs_backtick (l : List Char) :
    unescapeTemplateBody ('\\' :: backtickChar :: l)
      = backtickChar :: unescapeTemplateBody l := by
  rw [unescapeTemplateBody.eq_def]
  simp [backtick_ne_bs]

theorem unescape_bs_dollar_lbrace (l : List Char) :
    unescapeTemplateBody ('\\' :: '$' :: lbraceChar :: l)
      = '$' :: lbraceChar :: unescapeTemplateBody l := by
  rw [unescapeTemplateBody.eq_def]
  simp [dollar_ne_bs, dollar_ne_backtick]

theorem head_esc2_ne_lbrace (t : List Char) (h : t.head? ≠ some lbraceChar) :
    (escBackticks (escBackslashes t)).head? ≠ some lbraceChar := by
  cases t with
  | nil => simp [escBackslashes, escBackticks]
  | cons c2 t2 =>
      by_cases hbs : c2 = '\\'
      · subst hbs
        rw [escBackslashes_cons_bs, escBackticks_cons_ne _ _ bs_ne_backtick]
        simp [bs_ne_lbrace]
      · rw [escBackslashes_cons_ne _ _ hbs]
        by_cases hbt : c2 = backtickChar
        · subst hbt
          rw [escBackticks_cons_bt]
          simp [bs_ne_lbrace]
        · rw [escBackticks_cons_ne _ _ hbt]
          simpa using h

theorem unescape_escape_aux (s : List Char) :
    unescapeTemplateBody (escapeTemplateLiteral s) = s := by
  match s with
  | [] =>
      rw [show escapeTemplateLiteral [] = [] from rfl, unescapeTemplateBody.eq_def]
  | c :: t =>
      have ih := unescape_escape_aux t
      rw [escapeTemplateLiteral] at ih ⊢
      by_cases hbs : c = '\\'
      · subst hbs
        rw [escBackslashes_cons_bs,
            escBackticks_cons_ne _ _ bs_ne_backtick,
            escBackticks_cons_ne _ _ bs_ne_backtick,
            escDollarBrace_cons_ne _ _ bs_ne_dollar,
            escDollarBrace_cons_ne _ _ bs_ne_dollar,
            unescape_bs_bs, ih]
      · by_cases hbt : c = backtickChar
        · subst hbt
          rw [escBackslashes_cons_ne _ _ backtick_ne_bs,
              escBackticks_cons_bt,
              escDollarBrace_cons_ne _ _ bs_ne_dollar,
              escDollarBrace_cons_ne _ _ backtick_ne_dollar,
              unescape_bs_backtick, ih]
        · by_cases hd : c = '$'
          · subst hd
            cases t with
            | nil =>
                simp [escBackslashes, escBackticks, escDollarBrace,
                  unescapeTemplateBody, dollar_ne_bs]
            | cons c2 t2 =>
                by_cases hlb : c2 = lbraceChar
                · subst hlb
                  have ih2 := unescape_escape_aux t2
                  rw [escapeTemplateLiteral] at ih2
                  rw [escBackslashes_cons_ne _ _ dollar_ne_bs,
                      escBackslashes_cons_ne _ _ lbrace_ne_bs,
                      escBackticks_cons_ne _ _ dollar_ne_backtick,
                      escBackticks_cons_ne _ _ lbrace_ne_backtick,
                      escDollarBrace_dollar_lbrace,
                      unescape_bs_dollar_lbrace, ih2]
                · rw [escBackslashes_cons_ne _ _ dollar_ne_bs,
                      escBackticks_cons_ne _ _ dollar_ne_backtick,
                      escDollarBrace_dollar_cons _
                        (head_esc2_ne_lbrace (c2 :: t2) (by simp [hlb])),
                      unescape_cons_ne _ _ dollar_ne_bs, ih]
          · rw [escBackslashes_cons_ne _ _ hbs,
                escBackticks_cons_ne _ _ hbt,
                escDollarBrace_cons_ne _ _ hd,
                unescape_cons_ne _ _ hbs, ih]
termination_by s.length

/-- C10: undoing the three template-literal escapes on the output of
`escapeTemplateLiteral` recovers the input exactly, so every document's
content embedded in the generated server's source equals the original
file content. -/
theorem C10_escape_round_trip (s : List Char) :
    unescapeTemplateBody (escapeTemplateLiteral s) = s :=
  unescape_escape_aux s

end DocsToMcp
